import Mathlib

/-!
Verification of the ChessX100 move engine (10×10 chess variant with a
"Noble" piece) against its natural-language specification.

The definitions below are a shallow embedding of the JavaScript source
(`server.js`, en-passant revision): the board is the same row-major list
of optional piece codes, and each function mirrors the corresponding
source function line by line.  JavaScript `null` cells are `none`;
the string codes "wP", "bK", … become a (color, type) pair.
-/

namespace ChessX100

inductive Color where
  | w
  | b
deriving DecidableEq

inductive PieceType where
  | P
  | N
  | B
  | R
  | Q
  | K
  | A
deriving DecidableEq

structure Piece where
  color : Color
  ptype : PieceType
deriving DecidableEq

/-- A (row, column) pair, as supplied by the caller of the move API. -/
structure Square where
  r : Int
  c : Int
deriving DecidableEq

/-- `board[r][c]`: row-major grid of optional pieces, as in the source. -/
abbrev Board := List (List (Option Piece))

/-- `const SIZE = 10`. -/
def SIZE : Int := 10

/-- `board[r]` in JavaScript: `none` models the `undefined` produced by an
out-of-range row index (indexing into it would throw a TypeError). -/
def rowAt (board : Board) (r : Int) : Option (List (Option Piece)) :=
  if 0 ≤ r then board[r.toNat]? else none

/-- `row[c]` in JavaScript.  An out-of-range column yields `undefined`,
which the source only ever compares against `null` on paths that are
rejected for being out of bounds before the comparison is observable, so
it is conflated with the empty cell `none`. -/
def cellAt (row : List (Option Piece)) (c : Int) : Option Piece :=
  if 0 ≤ c then (row[c.toNat]?).getD none else none

/-- Total read `board[r][c]` used by the validators, which are only ever
called on in-bounds coordinates (the engine checks `inBounds` first). -/
def getCell (board : Board) (r c : Int) : Option Piece :=
  match rowAt board r with
  | none => none
  | some row => cellAt row c

/-- The JavaScript TypeError raised by indexing into `undefined`. -/
inductive JsError where
  | typeError
deriving DecidableEq

/-- A raw `board[r][c]` read in the request handler, performed before any
bounds check: it throws when the row index is out of range. -/
def readCell (board : Board) (r c : Int) : Except JsError (Option Piece) :=
  match rowAt board r with
  | none => Except.error JsError.typeError
  | some row => Except.ok (cellAt row c)

/-- `board[r][c] = v`: write one cell, leaving the grid shape unchanged.
(Out-of-range writes never happen: the engine validates bounds first.) -/
def setCell (board : Board) (r c : Int) (v : Option Piece) : Board :=
  if 0 ≤ r ∧ 0 ≤ c then
    match rowAt board r with
    | none => board
    | some row => List.set board r.toNat (List.set row c.toNat v)
  else board

/-- `inBounds(r, c)` from the source. -/
def inBounds (r c : Int) : Bool :=
  decide (0 ≤ r ∧ r < SIZE ∧ 0 ≤ c ∧ c < SIZE)

/-- `colorOf(piece)`: `piece?.[0] ?? null`. -/
def colorOf : Option Piece → Option Color
  | none => none
  | some p => some p.color

/-- `typeOf(piece)`: `piece?.[1] ?? null`. -/
def typeOf : Option Piece → Option PieceType
  | none => none
  | some p => some p.ptype

/-- The body of `pathClear`'s `while` loop, with explicit fuel.  The JS
loop advances `(r, c)` by the fixed step `(dr, dc)` until it reaches the
destination, returning `false` on the first occupied square.  The fuel-0
base case returns the loop condition itself: on every call the engine
makes, the supplied fuel is enough to reach the destination (proved
below), so that case is only the final loop-condition test. -/
def pathClearAux (board : Board) (tr tc dr dc : Int) : Nat → Int → Int → Bool
  | 0, r, c => decide (r = tr ∧ c = tc)
  | fuel + 1, r, c =>
    if r = tr ∧ c = tc then true
    else if getCell board r c ≠ none then false
    else pathClearAux board tr tc dr dc fuel (r + dr) (c + dc)

/-- `pathClear(board, from, to)` from the source: steps from `from`
toward `to` by the componentwise sign and requires every strictly
intermediate square to be empty.  `max |Δr| |Δc|` steps always reach the
destination when the two squares share a row, column or exact diagonal. -/
def pathClear (board : Board) (f t : Square) : Bool :=
  let dr := (t.r - f.r).sign
  let dc := (t.c - f.c).sign
  pathClearAux board t.r t.c dr dc ((t.r - f.r).natAbs.max (t.c - f.c).natAbs)
    (f.r + dr) (f.c + dc)

/-- White moves toward row 0, black toward row `SIZE - 1`. -/
def pawnDir (color : Color) : Int :=
  if color = Color.w then -1 else 1

/-- The pawn rank each side starts on: row 1 for black, `SIZE - 2` for white. -/
def pawnStartRow (color : Color) : Int :=
  if color = Color.w then SIZE - 2 else 1

/-- `isValidPawnMove(board, from, to, color, enPassantTarget, enPassantPawn)`
from the source: one-step push, double-step from the start row, diagonal
capture, or en passant into the current target square. -/
def isValidPawnMove (board : Board) (f t : Square) (color : Color)
    (epTarget epPawn : Option Square) : Bool :=
  let dir := pawnDir color
  let startRow := pawnStartRow color
  let dr := t.r - f.r
  let dc := t.c - f.c
  let target := getCell board t.r t.c
  if dc = 0 then
    if dr = dir ∧ target = none then true
    else if f.r = startRow ∧ dr = 2 * dir ∧ target = none ∧
        getCell board (f.r + dir) f.c = none then true
    else false
  else if dc.natAbs = 1 ∧ dr = dir then
    match target with
    | some q => decide (q.color ≠ color)
    | none =>
      match epTarget, epPawn with
      | some ept, some epp =>
        if t.r = ept.r ∧ t.c = ept.c ∧ epp.r = f.r ∧ epp.c = t.c then
          match getCell board epp.r epp.c with
          | some victim => decide (victim.ptype = PieceType.P ∧ victim.color ≠ color)
          | none => false
        else false
      | _, _ => false
  else false

/-- Structured verdict of `isValidMove`: `{ok:true}` or `{ok:false, reason}`. -/
inductive Verdict where
  | ok
  | illegal (reason : String)
deriving DecidableEq

/-- `isValidMove(board, from, to, turnColor, enPassantTarget, enPassantPawn)`
from the source: bounds, no-op, empty-source, turn, self-capture checks in
order, then the per-piece-type rule. -/
def isValidMove (board : Board) (f t : Square) (turnColor : Color)
    (epTarget epPawn : Option Square) : Verdict :=
  if ¬ (inBounds f.r f.c = true ∧ inBounds t.r t.c = true) then
    Verdict.illegal "Out of bounds."
  else if f.r = t.r ∧ f.c = t.c then
    Verdict.illegal "You must move to a different square."
  else
    match getCell board f.r f.c with
    | none => Verdict.illegal "No piece on that square."
    | some piece =>
      if piece.color ≠ turnColor then
        Verdict.illegal "Not your piece / not your turn."
      else if ∃ q, getCell board t.r t.c = some q ∧ q.color = turnColor then
        Verdict.illegal "You can’t capture your own piece."
      else
        let dr := t.r - f.r
        let dc := t.c - f.c
        let adr := dr.natAbs
        let adc := dc.natAbs
        match piece.ptype with
        | PieceType.P =>
          if isValidPawnMove board f t piece.color epTarget epPawn then Verdict.ok
          else Verdict.illegal "Illegal pawn move."
        | PieceType.N =>
          if (adr = 2 ∧ adc = 1) ∨ (adr = 1 ∧ adc = 2) then Verdict.ok
          else Verdict.illegal "Illegal knight move."
        | PieceType.B =>
          if adr = adc ∧ pathClear board f t = true then Verdict.ok
          else Verdict.illegal "Illegal bishop move."
        | PieceType.R =>
          if (dr = 0 ∨ dc = 0) ∧ pathClear board f t = true then Verdict.ok
          else Verdict.illegal "Illegal rook move."
        | PieceType.Q =>
          if (adr = adc ∨ dr = 0 ∨ dc = 0) ∧ pathClear board f t = true then Verdict.ok
          else Verdict.illegal "Illegal queen move."
        | PieceType.K =>
          if adr ≤ 1 ∧ adc ≤ 1 then Verdict.ok
          else Verdict.illegal "Illegal king move."
        | PieceType.A =>
          if adr ≤ 1 ∧ adc ≤ 1 then Verdict.ok
          else Verdict.illegal "Illegal noble move."

/-- The mutable `game` object. -/
structure GameState where
  board : Board
  turn : Color
  moveNumber : Nat
  isOver : Bool
  enPassantTarget : Option Square
  enPassantPawn : Option Square
  moves : List String
deriving DecidableEq

/-- `backRank(color)`: R N B A Q K A B N R. -/
def backRank (color : Color) : List (Option Piece) :=
  [some ⟨color, PieceType.R⟩, some ⟨color, PieceType.N⟩, some ⟨color, PieceType.B⟩,
   some ⟨color, PieceType.A⟩, some ⟨color, PieceType.Q⟩, some ⟨color, PieceType.K⟩,
   some ⟨color, PieceType.A⟩, some ⟨color, PieceType.B⟩, some ⟨color, PieceType.N⟩,
   some ⟨color, PieceType.R⟩]

/-- A full rank of pawns. -/
def pawnRank (color : Color) : List (Option Piece) :=
  List.replicate 10 (some ⟨color, PieceType.P⟩)

/-- An empty rank. -/
def emptyRank : List (Option Piece) :=
  List.replicate 10 none

/-- `initialBoard()`: black on rows 0–1, white on rows 8–9. -/
def initialBoard : Board :=
  [backRank Color.b, pawnRank Color.b, emptyRank, emptyRank, emptyRank,
   emptyRank, emptyRank, emptyRank, pawnRank Color.w, backRank Color.w]

/-- The initial `game` value (also what `/api/reset` restores). -/
def initialGame : GameState :=
  { board := initialBoard, turn := Color.w, moveNumber := 1, isOver := false,
    enPassantTarget := none, enPassantPawn := none, moves := [] }

/-- `toAlgebraic(r, c)`: file letter ('a'-relative column) + rank `SIZE - r`. -/
def toAlgebraic (r c : Int) : String :=
  let file := String.mk [(['a','b','c','d','e','f','g','h','i','j']).getD c.toNat 'a']
  let rank := toString (SIZE - r)
  file ++ rank

/-- `pieceToNotation(pieceType)`: the letter prefixed to a move string;
the pawn case and the JS `default` arm (a `null` type) give "". -/
def pieceLetter : Option PieceType → String
  | some PieceType.P => ""
  | some PieceType.R => "R"
  | some PieceType.B => "B"
  | some PieceType.N => "N"
  | some PieceType.A => "A"
  | some PieceType.Q => "Q"
  | some PieceType.K => "K"
  | none => ""

/-- The handler's `isEnPassantCapture` classification (computed before
validation): pawn, both en-passant squares present, empty destination,
single-step forward diagonal onto the target, victim on the origin row
and destination column. -/
def epCaptureFlag (piece toCell : Option Piece) (f t : Square)
    (epTarget epPawn : Option Square) : Bool :=
  match piece, epTarget, epPawn with
  | some mp, some ept, some epp =>
    decide (mp.ptype = PieceType.P ∧ toCell = none ∧ (t.c - f.c).natAbs = 1 ∧
      t.r - f.r = pawnDir mp.color ∧ t.r = ept.r ∧ t.c = ept.c ∧
      epp.r = f.r ∧ epp.c = t.c)
  | _, _, _ => false

/-- The pawn's promotion rank: row 0 for white, `SIZE - 1` for black. -/
def promoteRow (color : Color) : Int :=
  if color = Color.w then 0 else SIZE - 1

/-- The mutation block of the `/api/move` handler (source lines 266–331),
run once validation has succeeded: relocate the piece, perform the
en-passant removal, clear and possibly re-set the en-passant window,
auto-promote, detect king capture, flip the turn, bump the move number
and append the move string. -/
def mutate (g : GameState) (f t : Square) (mp : Piece) (toCell : Option Piece)
    (pieceType : Option PieceType) (isCapture isEnPassantCapture : Bool) : GameState :=
  let captured := toCell
  let b1 := setCell g.board t.r t.c (some mp)
  let b2 := setCell b1 f.r f.c none
  let b3 :=
    if isEnPassantCapture then
      match g.enPassantPawn with
      | some epp => setCell b2 epp.r epp.c none
      | none => b2
    else b2
  let epT : Option Square :=
    if mp.ptype = PieceType.P ∧ f.r = pawnStartRow mp.color ∧
        (t.r - f.r).natAbs = 2 ∧ f.c = t.c then
      some ⟨f.r + pawnDir mp.color, f.c⟩
    else none
  let epP : Option Square :=
    if mp.ptype = PieceType.P ∧ f.r = pawnStartRow mp.color ∧
        (t.r - f.r).natAbs = 2 ∧ f.c = t.c then
      some ⟨t.r, t.c⟩
    else none
  let b4 :=
    if mp.ptype = PieceType.P ∧ t.r = promoteRow mp.color then
      setCell b3 t.r t.c (some ⟨mp.color, PieceType.Q⟩)
    else b3
  let isOver2 :=
    if ∃ cp, captured = some cp ∧ cp.ptype = PieceType.K then true else g.isOver
  let turn2 := if g.turn = Color.w then Color.b else Color.w
  let moveNumber2 := if turn2 = Color.w then g.moveNumber + 1 else g.moveNumber
  let nstr :=
    (if pieceType = some PieceType.P then
      (if isCapture then (toAlgebraic f.r f.c).take 1 ++ "x" ++ toAlgebraic t.r t.c
       else toAlgebraic t.r t.c)
     else pieceLetter pieceType ++ (if isCapture then "x" else "") ++ toAlgebraic t.r t.c)
    ++ (if isOver2 then "#" else "")
    ++ (if mp.ptype = PieceType.P ∧ t.r = promoteRow mp.color then "=Q" else "")
    ++ (if isEnPassantCapture then " e.p." else "")
  { board := b4, turn := turn2, moveNumber := moveNumber2, isOver := isOver2,
    enPassantTarget := epT, enPassantPawn := epP, moves := g.moves ++ [nstr] }

/-- The JSON reply of `/api/move`; a rejection carries the (unchanged)
game state the handler would go on serving. -/
structure MoveReply where
  ok : Bool
  reason : Option String
  game : GameState
deriving DecidableEq

/-- The `/api/move` handler (source lines 231–335): the game-over check,
the raw pre-validation board reads (which throw a TypeError when a row
index is out of range), validation, then the mutation block. -/
def applyMove (g : GameState) (f t : Square) : Except JsError MoveReply :=
  if g.isOver then
    Except.ok ⟨false, some "Game over. Reset to play again.", g⟩
  else
    match readCell g.board f.r f.c with
    | Except.error e => Except.error e
    | Except.ok piece =>
      match readCell g.board t.r t.c with
      | Except.error e => Except.error e
      | Except.ok toCell =>
        match isValidMove g.board f t g.turn g.enPassantTarget g.enPassantPawn with
        | Verdict.illegal reason => Except.ok ⟨false, some reason, g⟩
        | Verdict.ok =>
          match piece with
          | none => Except.error JsError.typeError
          | some mp =>
            Except.ok ⟨true, none,
              mutate g f t mp toCell (typeOf piece) (decide (toCell ≠ none))
                (epCaptureFlag piece toCell f t g.enPassantTarget g.enPassantPawn)⟩

/-- The state after a move, for concrete instantiations: the reply's game
on success, the unchanged state on a thrown TypeError. -/
def afterMove (g : GameState) (f t : Square) : GameState :=
  match applyMove g f t with
  | Except.ok reply => reply.game
  | Except.error _ => g

/-- A well-formed board: the 10×10 grid shape that `initialBoard`
establishes and every in-bounds write preserves. -/
def boardWF (b : Board) : Prop :=
  b.length = 10 ∧ ∀ row ∈ b, row.length = 10

/-- A game that is already over (used to exercise the game-over gate). -/
def gOver : GameState :=
  { initialGame with isOver := true }

/-- A position where the white queen at (1,0) can capture the black king
at (0,0). -/
def gK : GameState :=
  { board :=
      [some ⟨Color.b, PieceType.K⟩ :: List.replicate 9 none,
       some ⟨Color.w, PieceType.Q⟩ :: List.replicate 9 none,
       emptyRank, emptyRank, emptyRank, emptyRank, emptyRank, emptyRank,
       emptyRank, emptyRank],
    turn := Color.w, moveNumber := 1, isOver := false,
    enPassantTarget := none, enPassantPawn := none, moves := [] }

/-- A position where the white pawn at (1,4) can capture the black king
at (0,5) and promote on the same move. -/
def gC7 : GameState :=
  { board :=
      [[none, none, none, none, none, some ⟨Color.b, PieceType.K⟩,
        none, none, none, none],
       [none, none, none, none, some ⟨Color.w, PieceType.P⟩,
        none, none, none, none, none],
       emptyRank, emptyRank, emptyRank, emptyRank, emptyRank, emptyRank,
       emptyRank, emptyRank],
    turn := Color.w, moveNumber := 1, isOver := false,
    enPassantTarget := none, enPassantPawn := none, moves := [] }

/-- A position right after the white pawn double-stepped to (6,4): the
black pawn at (6,3) may capture it en passant by moving into (7,4). -/
def gEP : GameState :=
  { board :=
      [emptyRank, emptyRank, emptyRank, emptyRank, emptyRank, emptyRank,
       [none, none, none, some ⟨Color.b, PieceType.P⟩,
        some ⟨Color.w, PieceType.P⟩, none, none, none, none, none],
       emptyRank, emptyRank, emptyRank],
    turn := Color.b, moveNumber := 1, isOver := false,
    enPassantTarget := some ⟨7, 4⟩, enPassantPawn := some ⟨6, 4⟩, moves := [] }

deriving instance DecidableEq for Except

/-! ### Board access lemmas -/

theorem rowAt_nonneg {b : Board} {r : Int} (h0 : 0 ≤ r) :
    rowAt b r = b[r.toNat]? := by
  unfold rowAt
  rw [if_pos h0]

theorem rowAt_neg {b : Board} {r : Int} (h0 : ¬ 0 ≤ r) :
    rowAt b r = none := by
  unfold rowAt
  rw [if_neg h0]

theorem getCell_of_rowAt_none {b : Board} {r : Int} (c : Int)
    (h : rowAt b r = none) : getCell b r c = none := by
  unfold getCell
  rw [h]

theorem getCell_of_rowAt_some {b : Board} {r : Int} (c : Int)
    {row : List (Option Piece)} (h : rowAt b r = some row) :
    getCell b r c = cellAt row c := by
  unfold getCell
  rw [h]

theorem readCell_ok_getCell {b : Board} {r c : Int} {x : Option Piece}
    (h : readCell b r c = Except.ok x) : getCell b r c = x := by
  unfold readCell at h
  cases hrow : rowAt b r with
  | none => rw [hrow] at h; exact absurd h (by simp)
  | some row =>
    rw [hrow] at h
    rw [getCell_of_rowAt_some _ hrow]
    simpa using h

theorem rowAt_of_WF {b : Board} {r : Int} (hwf : boardWF b)
    (h0 : 0 ≤ r) (h10 : r < 10) :
    ∃ row, rowAt b r = some row ∧ row.length = 10 := by
  have hlen := hwf.1
  have hlt : r.toNat < b.length := by omega
  refine ⟨b[r.toNat], ?_, ?_⟩
  · rw [rowAt_nonneg h0]
    exact List.getElem?_eq_getElem hlt
  · exact hwf.2 _ (List.getElem_mem hlt)

theorem setCell_of_rowAt_some {b : Board} {r c : Int} (v : Option Piece)
    {row : List (Option Piece)} (hr : 0 ≤ r) (hc : 0 ≤ c)
    (h : rowAt b r = some row) :
    setCell b r c v = List.set b r.toNat (row.set c.toNat v) := by
  unfold setCell
  rw [if_pos ⟨hr, hc⟩, h]

theorem getCell_setCell_self {b : Board} {r c : Int} (v : Option Piece)
    (hwf : boardWF b) (hb : inBounds r c = true) :
    getCell (setCell b r c v) r c = v := by
  have hb' : 0 ≤ r ∧ r < 10 ∧ 0 ≤ c ∧ c < 10 := by
    simpa [inBounds, SIZE] using hb
  obtain ⟨h0r, hr, h0c, hc⟩ := hb'
  obtain ⟨row, hrow, hrowlen⟩ := rowAt_of_WF hwf h0r hr
  have hlen := hwf.1
  have hrn : r.toNat < b.length := by omega
  have hcn : c.toNat < row.length := by omega
  rw [setCell_of_rowAt_some v h0r h0c hrow]
  have hrow2 : rowAt (List.set b r.toNat (row.set c.toNat v)) r
      = some (row.set c.toNat v) := by
    rw [rowAt_nonneg h0r]
    exact List.getElem?_set_eq_of_lt _ hrn
  rw [getCell_of_rowAt_some _ hrow2]
  unfold cellAt
  rw [if_pos h0c, List.getElem?_set_eq_of_lt _ hcn]
  rfl

theorem getCell_setCell_other {b : Board} {r c r' c' : Int} (v : Option Piece)
    (hne : ¬(r = r' ∧ c = c')) :
    getCell (setCell b r' c' v) r c = getCell b r c := by
  by_cases hpos : 0 ≤ r' ∧ 0 ≤ c'
  · cases hrow : rowAt b r' with
    | none =>
      unfold setCell
      rw [if_pos hpos, hrow]
    | some row =>
      rw [setCell_of_rowAt_some v hpos.1 hpos.2 hrow]
      by_cases h0r : 0 ≤ r
      · by_cases hrr : r = r'
        · subst hrr
          have hc' : c ≠ c' := fun h => hne ⟨rfl, h⟩
          have hrow1 : b[r.toNat]? = some row := by
            rw [rowAt_nonneg h0r] at hrow
            exact hrow
          have hlt : r.toNat < b.length := (List.getElem?_eq_some.mp hrow1).1
          have hrow2 : rowAt (List.set b r.toNat (row.set c'.toNat v)) r
              = some (row.set c'.toNat v) := by
            rw [rowAt_nonneg h0r]
            exact List.getElem?_set_eq_of_lt _ hlt
          rw [getCell_of_rowAt_some _ hrow2, getCell_of_rowAt_some _ hrow]
          by_cases h0c : 0 ≤ c
          · unfold cellAt
            rw [if_pos h0c, if_pos h0c,
              List.getElem?_set_ne (by omega : c'.toNat ≠ c.toNat)]
          · unfold cellAt
            rw [if_neg h0c, if_neg h0c]
        · have hrow2 : rowAt (List.set b r'.toNat (row.set c'.toNat v)) r
              = rowAt b r := by
            rw [rowAt_nonneg h0r, rowAt_nonneg h0r]
            by_cases hnn : r'.toNat = r.toNat
            · have hr0' : r = r' := by omega
              exact absurd hr0' hrr
            · exact List.getElem?_set_ne hnn
          unfold getCell
          rw [hrow2]
      · rw [getCell_of_rowAt_none _ (rowAt_neg h0r),
          getCell_of_rowAt_none _ (rowAt_neg h0r)]
  · unfold setCell
    rw [if_neg hpos]

theorem setCell_WF {b : Board} {r c : Int} (v : Option Piece)
    (hwf : boardWF b) : boardWF (setCell b r c v) := by
  by_cases hpos : 0 ≤ r ∧ 0 ≤ c
  · cases hrow : rowAt b r with
    | none =>
      unfold setCell
      rw [if_pos hpos, hrow]
      exact hwf
    | some row =>
      rw [setCell_of_rowAt_some v hpos.1 hpos.2 hrow]
      constructor
      · rw [List.length_set]; exact hwf.1
      · intro row' hmem
        rcases List.mem_or_eq_of_mem_set hmem with h | h
        · exact hwf.2 _ h
        · subst h
          rw [List.length_set]
          have hrow1 : b[r.toNat]? = some row := by
            rw [rowAt_nonneg hpos.1] at hrow
            exact hrow
          rcases List.getElem?_eq_some.mp hrow1 with ⟨hlt, hget⟩
          exact hwf.2 _ (hget ▸ List.getElem_mem hlt)
  · unfold setCell
    rw [if_neg hpos]
    exact hwf

/-! ### The pawn rule, stated as the specification words it -/

/-- Forward one step into an empty square along the forward direction
with Δc = 0. -/
def pawnOneStep (board : Board) (f t : Square) (color : Color) : Prop :=
  t.c - f.c = 0 ∧ t.r - f.r = pawnDir color ∧ getCell board t.r t.c = none

/-- A two-step forward move from the starting rank with both the
intermediate and the destination square empty. -/
def pawnTwoStep (board : Board) (f t : Square) (color : Color) : Prop :=
  t.c - f.c = 0 ∧ f.r = pawnStartRow color ∧ t.r - f.r = 2 * pawnDir color ∧
  getCell board t.r t.c = none ∧ getCell board (f.r + pawnDir color) f.c = none

/-- A one-step diagonal onto a square holding an opposing piece. -/
def pawnDiagCapture (board : Board) (f t : Square) (color : Color) : Prop :=
  (t.c - f.c).natAbs = 1 ∧ t.r - f.r = pawnDir color ∧
  ∃ q, getCell board t.r t.c = some q ∧ q.color ≠ color

/-- The same diagonal onto an empty square equal to the en-passant
target, with the victim square on the moving pawn's origin row and the
destination column and holding an opposing pawn. -/
def pawnEpCapture (board : Board) (f t : Square) (color : Color)
    (epTarget epPawn : Option Square) : Prop :=
  (t.c - f.c).natAbs = 1 ∧ t.r - f.r = pawnDir color ∧
  getCell board t.r t.c = none ∧
  epTarget = some ⟨t.r, t.c⟩ ∧ epPawn = some ⟨f.r, t.c⟩ ∧
  ∃ v, getCell board f.r t.c = some v ∧ v.ptype = PieceType.P ∧ v.color ≠ color

theorem pawnDir_cases (color : Color) :
    pawnDir color = -1 ∨ pawnDir color = 1 := by
  cases color <;> simp [pawnDir]

theorem isValidPawnMove_iff (board : Board) (f t : Square) (color : Color)
    (epTarget epPawn : Option Square) :
    isValidPawnMove board f t color epTarget epPawn = true ↔
      (pawnOneStep board f t color ∨ pawnTwoStep board f t color ∨
       pawnDiagCapture board f t color ∨
       pawnEpCapture board f t color epTarget epPawn) := by
  have hdir := pawnDir_cases color
  constructor
  · intro h
    simp only [isValidPawnMove] at h
    by_cases hdc : t.c - f.c = 0
    · rw [if_pos hdc] at h
      by_cases h1 : t.r - f.r = pawnDir color ∧ getCell board t.r t.c = none
      · exact Or.inl ⟨hdc, h1.1, h1.2⟩
      · rw [if_neg h1] at h
        by_cases h2 : f.r = pawnStartRow color ∧ t.r - f.r = 2 * pawnDir color ∧
            getCell board t.r t.c = none ∧ getCell board (f.r + pawnDir color) f.c = none
        · exact Or.inr (Or.inl ⟨hdc, h2.1, h2.2.1, h2.2.2.1, h2.2.2.2⟩)
        · rw [if_neg h2] at h
          exact absurd h (by simp)
    · rw [if_neg hdc] at h
      by_cases hdiag : (t.c - f.c).natAbs = 1 ∧ t.r - f.r = pawnDir color
      · rw [if_pos hdiag] at h
        rcases htarget : getCell board t.r t.c with _ | q
        · simp only [htarget] at h
          rcases hepT : epTarget with _ | ept
          · simp only [hepT] at h
            exact absurd h (by simp)
          · rcases hepP : epPawn with _ | epp
            · simp only [hepT, hepP] at h
              exact absurd h (by simp)
            · simp only [hepT, hepP] at h
              by_cases hmatch : t.r = ept.r ∧ t.c = ept.c ∧ epp.r = f.r ∧ epp.c = t.c
              · rw [if_pos hmatch] at h
                rcases hvictim : getCell board epp.r epp.c with _ | victim
                · simp only [hvictim] at h
                  exact absurd h (by simp)
                · simp only [hvictim] at h
                  have hv := of_decide_eq_true (by simpa using h)
                  refine Or.inr (Or.inr (Or.inr
                    ⟨hdiag.1, hdiag.2, htarget, ?_, ?_, victim, ?_, hv.1, hv.2⟩))
                  · cases ept with
                    | mk eptr eptc =>
                      simp only [Option.some.injEq, Square.mk.injEq]
                      exact ⟨hmatch.1.symm, hmatch.2.1.symm⟩
                  · cases epp with
                    | mk eppr eppc =>
                      simp only [Option.some.injEq, Square.mk.injEq]
                      exact ⟨hmatch.2.2.1, hmatch.2.2.2⟩
                  · rw [hmatch.2.2.1, hmatch.2.2.2] at hvictim
                    exact hvictim
              · rw [if_neg hmatch] at h
                exact absurd h (by simp)
        · simp only [htarget] at h
          exact Or.inr (Or.inr (Or.inl
            ⟨hdiag.1, hdiag.2, q, htarget, of_decide_eq_true (by simpa using h)⟩))
      · rw [if_neg hdiag] at h
        exact absurd h (by simp)
  · intro h
    unfold isValidPawnMove
    rcases h with ⟨hdc, hdr, htgt⟩ | ⟨hdc, hstart, hdr, htgt, hmid⟩ |
      ⟨hdc, hdr, q, htgt, hq⟩ | ⟨hdc, hdr, htgt, hepT, hepP, v, hv, hvP, hvc⟩
    · rw [if_pos hdc, if_pos ⟨hdr, htgt⟩]
    · rw [if_pos hdc]
      have h1 : ¬(t.r - f.r = pawnDir color ∧ getCell board t.r t.c = none) := by
        rintro ⟨ha, _⟩
        rw [hdr] at ha
        rcases hdir with hd | hd <;> rw [hd] at ha <;> omega
      rw [if_neg h1, if_pos ⟨hstart, hdr, htgt, hmid⟩]
    · have hdc0 : ¬ t.c - f.c = 0 := by
        intro h0
        rw [h0] at hdc
        simp at hdc
      rw [if_neg hdc0, if_pos ⟨hdc, hdr⟩]
      simp only [htgt]
      exact decide_eq_true hq
    · have hdc0 : ¬ t.c - f.c = 0 := by
        intro h0
        rw [h0] at hdc
        simp at hdc
      rw [if_neg hdc0, if_pos ⟨hdc, hdr⟩]
      simp only [htgt, hepT, hepP]
      simp [hv, hvP, hvc]

/-- With no en-passant target on offer, every pawn diagonal into an
empty square is rejected. -/
theorem isValidPawnMove_no_ep (board : Board) (f t : Square) (color : Color)
    (epPawn : Option Square) (hdc : t.c - f.c ≠ 0)
    (htgt : getCell board t.r t.c = none) :
    isValidPawnMove board f t color none epPawn = false := by
  unfold isValidPawnMove
  rw [if_neg hdc]
  by_cases hdiag : (t.c - f.c).natAbs = 1 ∧ t.r - f.r = pawnDir color
  · rw [if_pos hdiag]
    simp only [htgt]
  · rw [if_neg hdiag]

/-! ### Eliminating a successful validation and a successful move -/

theorem isValidMove_ok_elim {board : Board} {f t : Square} {turnColor : Color}
    {epTarget epPawn : Option Square}
    (h : isValidMove board f t turnColor epTarget epPawn = Verdict.ok) :
    inBounds f.r f.c = true ∧ inBounds t.r t.c = true ∧
    ¬(f.r = t.r ∧ f.c = t.c) ∧
    ∃ p, getCell board f.r f.c = some p ∧ p.color = turnColor ∧
      (∀ q, getCell board t.r t.c = some q → q.color ≠ turnColor) ∧
      (p.ptype = PieceType.P →
        isValidPawnMove board f t p.color epTarget epPawn = true) := by
  simp only [isValidMove] at h
  by_cases hb : inBounds f.r f.c = true ∧ inBounds t.r t.c = true
  · rw [if_neg (not_not_intro hb)] at h
    by_cases hsame : f.r = t.r ∧ f.c = t.c
    · rw [if_pos hsame] at h
      exact absurd h (by simp)
    · rw [if_neg hsame] at h
      rcases hpiece : getCell board f.r f.c with _ | p
      · simp only [hpiece] at h
        exact absurd h (by simp)
      · simp only [hpiece] at h
        by_cases hcol : p.color ≠ turnColor
        · rw [if_pos hcol] at h
          exact absurd h (by simp)
        · rw [if_neg hcol] at h
          by_cases hself : ∃ q, getCell board t.r t.c = some q ∧ q.color = turnColor
          · rw [if_pos hself] at h
            exact absurd h (by simp)
          · rw [if_neg hself] at h
            refine ⟨hb.1, hb.2, hsame, p, rfl, not_not.mp hcol,
              fun q hq hqc => hself ⟨q, hq, hqc⟩, fun hP => ?_⟩
            simp only [hP] at h
            by_cases hpm : isValidPawnMove board f t p.color epTarget epPawn = true
            · exact hpm
            · rw [if_neg hpm] at h
              exact absurd h (by simp)
  · rw [if_pos hb] at h
    exact absurd h (by simp)

theorem applyMove_isOver {g : GameState} (f t : Square)
    (hover : g.isOver = true) :
    applyMove g f t =
      Except.ok ⟨false, some "Game over. Reset to play again.", g⟩ := by
  simp only [applyMove]
  rw [if_pos hover]

theorem applyMove_ok_true_elim {g : GameState} {f t : Square} {g2 : GameState}
    (h : applyMove g f t = Except.ok ⟨true, none, g2⟩) :
    g.isOver = false ∧
    ∃ mp,
      getCell g.board f.r f.c = some mp ∧
      isValidMove g.board f t g.turn g.enPassantTarget g.enPassantPawn
        = Verdict.ok ∧
      g2 = mutate g f t mp (getCell g.board t.r t.c) (some mp.ptype)
        (decide (getCell g.board t.r t.c ≠ none))
        (epCaptureFlag (some mp) (getCell g.board t.r t.c) f t
          g.enPassantTarget g.enPassantPawn) := by
  simp only [applyMove] at h
  by_cases hover : g.isOver = true
  · rw [if_pos hover] at h
    exact absurd h (by simp)
  · rw [if_neg hover] at h
    rcases hrf : readCell g.board f.r f.c with e | piece
    · simp only [hrf] at h
      exact absurd h (by simp)
    · simp only [hrf] at h
      rcases hrt : readCell g.board t.r t.c with e | toCell
      · simp only [hrt] at h
        exact absurd h (by simp)
      · simp only [hrt] at h
        rcases hvm : isValidMove g.board f t g.turn g.enPassantTarget
            g.enPassantPawn with _ | reason
        · simp only [hvm] at h
          rcases piece with _ | mp
          · simp at h
          · simp only [typeOf, Except.ok.injEq, MoveReply.mk.injEq, true_and] at h
            have hgf : getCell g.board f.r f.c = some mp := readCell_ok_getCell hrf
            have hgt : getCell g.board t.r t.c = toCell := readCell_ok_getCell hrt
            subst hgt
            exact ⟨Bool.not_eq_true _ ▸ hover, mp, hgf, rfl, h.symm⟩
        · simp only [hvm] at h
          exact absurd h (by simp)

theorem applyMove_rejected_elim {g : GameState} {f t : Square}
    {reason : Option String} {g2 : GameState}
    (h : applyMove g f t = Except.ok ⟨false, reason, g2⟩) : g2 = g := by
  simp only [applyMove] at h
  by_cases hover : g.isOver = true
  · rw [if_pos hover] at h
    exact (by simpa using congrArg MoveReply.game (Except.ok.inj h) : g = g2).symm
  · rw [if_neg hover] at h
    rcases hrf : readCell g.board f.r f.c with e | piece
    · simp only [hrf] at h
      exact absurd h (by simp)
    · simp only [hrf] at h
      rcases hrt : readCell g.board t.r t.c with e | toCell
      · simp only [hrt] at h
        exact absurd h (by simp)
      · simp only [hrt] at h
        rcases hvm : isValidMove g.board f t g.turn g.enPassantTarget
            g.enPassantPawn with _ | reason'
        · simp only [hvm] at h
          rcases piece with _ | mp
          · simp at h
          · have := congrArg MoveReply.ok (Except.ok.inj h)
            simp at this
        · simp only [hvm] at h
          exact (by simpa using congrArg MoveReply.game (Except.ok.inj h) : g = g2).symm

/-! ### The sliding-path loop -/

theorem pathClearAux_spec (board : Board) (tr tc dr dc : Int) :
    ∀ (m fuel : Nat) (r c : Int), m ≤ fuel →
      (∀ j : Nat, j < m → ¬(r + (j : Int) * dr = tr ∧ c + (j : Int) * dc = tc)) →
      (r + (m : Int) * dr = tr ∧ c + (m : Int) * dc = tc) →
      (pathClearAux board tr tc dr dc fuel r c = true ↔
        ∀ j : Nat, j < m → getCell board (r + (j : Int) * dr) (c + (j : Int) * dc) = none) := by
  intro m
  induction m with
  | zero =>
    intro fuel r c _ _ hreach
    have hr : r = tr := by simpa using hreach.1
    have hc : c = tc := by simpa using hreach.2
    have hend : pathClearAux board tr tc dr dc fuel r c = true := by
      cases fuel with
      | zero => simp [pathClearAux, hr, hc]
      | succ fu =>
        simp only [pathClearAux]
        rw [if_pos ⟨hr, hc⟩]
    refine iff_of_true hend ?_
    intro j hj
    exact absurd hj (by omega)
  | succ m ih =>
    intro fuel r c hfuel hmiss hreach
    cases fuel with
    | zero => exact absurd hfuel (by omega)
    | succ fu =>
      have hne0 : ¬(r = tr ∧ c = tc) := by
        have := hmiss 0 (by omega)
        simpa using this
      simp only [pathClearAux]
      rw [if_neg hne0]
      by_cases hocc : getCell board r c ≠ none
      · rw [if_pos hocc]
        refine iff_of_false (by simp) ?_
        intro hall
        exact hocc (by simpa using hall 0 (by omega))
      · rw [if_neg hocc]
        have hcell : getCell board r c = none := not_not.mp hocc
        have hstep : ∀ j : Nat, (r + dr) + (j : Int) * dr = r + ((j : Int) + 1) * dr := by
          intro j
          ring
        have hstepc : ∀ j : Nat, (c + dc) + (j : Int) * dc = c + ((j : Int) + 1) * dc := by
          intro j
          ring
        have hmiss' : ∀ j : Nat, j < m →
            ¬((r + dr) + (j : Int) * dr = tr ∧ (c + dc) + (j : Int) * dc = tc) := by
          intro j hj hand
          apply hmiss (j + 1) (by omega)
          constructor
          · have := hand.1
            rw [hstep j] at this
            push_cast
            linarith
          · have := hand.2
            rw [hstepc j] at this
            push_cast
            linarith
        have hreach' : (r + dr) + (m : Int) * dr = tr ∧ (c + dc) + (m : Int) * dc = tc := by
          constructor
          · have := hreach.1
            rw [hstep m]
            push_cast at this
            linarith
          · have := hreach.2
            rw [hstepc m]
            push_cast at this
            linarith
        have IH := ih fu (r + dr) (c + dc) (by omega) hmiss' hreach'
        rw [IH]
        constructor
        · intro hall j hj
          cases j with
          | zero => simpa using hcell
          | succ k =>
            have := hall k (by omega)
            rw [hstep k, hstepc k] at this
            push_cast
            convert this using 3
        · intro hall k hk
          have := hall (k + 1) (by omega)
          rw [hstep k, hstepc k]
          convert this using 3

theorem pathClear_aligned (board : Board) (f t : Square)
    (hf : inBounds f.r f.c = true) (ht : inBounds t.r t.c = true)
    (hne : ¬(f.r = t.r ∧ f.c = t.c))
    (halign : (t.r - f.r).natAbs = (t.c - f.c).natAbs ∨ t.r - f.r = 0 ∨ t.c - f.c = 0) :
    (∀ k : Nat, 1 ≤ k → k < (t.r - f.r).natAbs.max (t.c - f.c).natAbs →
       inBounds (f.r + (k : Int) * (t.r - f.r).sign)
         (f.c + (k : Int) * (t.c - f.c).sign) = true) ∧
    (pathClear board f t = true ↔
       ∀ k : Nat, 1 ≤ k → k < (t.r - f.r).natAbs.max (t.c - f.c).natAbs →
         getCell board (f.r + (k : Int) * (t.r - f.r).sign)
           (f.c + (k : Int) * (t.c - f.c).sign) = none) ∧
    (∀ fuel : Nat, (t.r - f.r).natAbs.max (t.c - f.c).natAbs ≤ fuel →
       pathClearAux board t.r t.c (t.r - f.r).sign (t.c - f.c).sign fuel
         (f.r + (t.r - f.r).sign) (f.c + (t.c - f.c).sign) = pathClear board f t) := by
  have hfb : 0 ≤ f.r ∧ f.r < 10 ∧ 0 ≤ f.c ∧ f.c < 10 := by
    simpa [inBounds, SIZE] using hf
  have htb : 0 ≤ t.r ∧ t.r < 10 ∧ 0 ≤ t.c ∧ t.c < 10 := by
    simpa [inBounds, SIZE] using ht
  have hmx1 : (t.r - f.r).natAbs ≤ (t.r - f.r).natAbs.max (t.c - f.c).natAbs :=
    Nat.le_max_left _ _
  have hmx2 : (t.c - f.c).natAbs ≤ (t.r - f.r).natAbs.max (t.c - f.c).natAbs :=
    Nat.le_max_right _ _
  have hmx3 : (t.r - f.r).natAbs.max (t.c - f.c).natAbs = (t.r - f.r).natAbs ∨
      (t.r - f.r).natAbs.max (t.c - f.c).natAbs = (t.c - f.c).natAbs :=
    max_choice _ _
  have hsr3 : (t.r - f.r).sign = -1 ∨ (t.r - f.r).sign = 0 ∨ (t.r - f.r).sign = 1 := by
    rcases lt_trichotomy (t.r - f.r) 0 with h | h | h
    · exact Or.inl (Int.sign_eq_neg_one_of_neg h)
    · exact Or.inr (Or.inl (by rw [h]; exact Int.sign_zero))
    · exact Or.inr (Or.inr (Int.sign_eq_one_of_pos h))
  have hsc3 : (t.c - f.c).sign = -1 ∨ (t.c - f.c).sign = 0 ∨ (t.c - f.c).sign = 1 := by
    rcases lt_trichotomy (t.c - f.c) 0 with h | h | h
    · exact Or.inl (Int.sign_eq_neg_one_of_neg h)
    · exact Or.inr (Or.inl (by rw [h]; exact Int.sign_zero))
    · exact Or.inr (Or.inr (Int.sign_eq_one_of_pos h))
  have hsnr := Int.sign_mul_natAbs (t.r - f.r)
  have hsnc := Int.sign_mul_natAbs (t.c - f.c)
  have hreachr : t.r = f.r +
      ((t.r - f.r).natAbs.max (t.c - f.c).natAbs : Int) * (t.r - f.r).sign := by
    rcases halign with h | h | h
    · have hmax : ((t.r - f.r).natAbs.max (t.c - f.c).natAbs : Int)
          = ((t.r - f.r).natAbs : Int) := by omega
      rw [hmax, mul_comm, hsnr]
      ring
    · rw [h]
      simp [Int.sign_zero]
      omega
    · have hmax : ((t.r - f.r).natAbs.max (t.c - f.c).natAbs : Int)
          = ((t.r - f.r).natAbs : Int) := by omega
      rw [hmax, mul_comm, hsnr]
      ring
  have hreachc : t.c = f.c +
      ((t.r - f.r).natAbs.max (t.c - f.c).natAbs : Int) * (t.c - f.c).sign := by
    rcases halign with h | h | h
    · have hmax : ((t.r - f.r).natAbs.max (t.c - f.c).natAbs : Int)
          = ((t.c - f.c).natAbs : Int) := by omega
      rw [hmax, mul_comm, hsnc]
      ring
    · have hmax : ((t.r - f.r).natAbs.max (t.c - f.c).natAbs : Int)
          = ((t.c - f.c).natAbs : Int) := by omega
      rw [hmax, mul_comm, hsnc]
      ring
    · rw [h]
      simp [Int.sign_zero]
      omega
  have hn1 : 1 ≤ (t.r - f.r).natAbs.max (t.c - f.c).natAbs := by
    by_contra hlt
    have h1 : (t.r - f.r).natAbs = 0 := by omega
    have h2 : (t.c - f.c).natAbs = 0 := by omega
    exact hne ⟨by omega, by omega⟩
  have hbound : ∀ k : Nat, k ≤ (t.r - f.r).natAbs.max (t.c - f.c).natAbs →
      inBounds (f.r + (k : Int) * (t.r - f.r).sign)
        (f.c + (k : Int) * (t.c - f.c).sign) = true := by
    intro k hk
    simp only [inBounds, SIZE, decide_eq_true_eq]
    rcases hsr3 with hs | hs | hs <;> rcases hsc3 with hs' | hs' | hs' <;>
      rw [hs] at hreachr ⊢ <;> rw [hs'] at hreachc ⊢ <;> omega
  have hcast1 : ∀ k : Nat, 1 ≤ k → ((k - 1 : Nat) : Int) = (k : Int) - 1 := by
    intro k hk
    omega
  have hmiss : ∀ j : Nat, j < (t.r - f.r).natAbs.max (t.c - f.c).natAbs - 1 →
      ¬((f.r + (t.r - f.r).sign) + (j : Int) * (t.r - f.r).sign = t.r ∧
        (f.c + (t.c - f.c).sign) + (j : Int) * (t.c - f.c).sign = t.c) := by
    intro j hj hand
    obtain ⟨ha1, ha2⟩ := hand
    rcases hsr3 with hs | hs | hs <;> rcases hsc3 with hs' | hs' | hs' <;>
      rw [hs] at hreachr ha1 <;> rw [hs'] at hreachc ha2 <;> omega
  have hreach' : (f.r + (t.r - f.r).sign) +
      (((t.r - f.r).natAbs.max (t.c - f.c).natAbs - 1 : Nat) : Int) * (t.r - f.r).sign = t.r ∧
      (f.c + (t.c - f.c).sign) +
      (((t.r - f.r).natAbs.max (t.c - f.c).natAbs - 1 : Nat) : Int) * (t.c - f.c).sign = t.c := by
    have hc : (((t.r - f.r).natAbs.max (t.c - f.c).natAbs - 1 : Nat) : Int)
        = ((t.r - f.r).natAbs.max (t.c - f.c).natAbs : Int) - 1 := by omega
    rw [hc]
    constructor
    · linear_combination -hreachr
    · linear_combination -hreachc
  have spec0 := pathClearAux_spec board t.r t.c (t.r - f.r).sign (t.c - f.c).sign
      ((t.r - f.r).natAbs.max (t.c - f.c).natAbs - 1)
      ((t.r - f.r).natAbs.max (t.c - f.c).natAbs)
      (f.r + (t.r - f.r).sign) (f.c + (t.c - f.c).sign) (by omega) hmiss hreach'
  have hpc : pathClear board f t = pathClearAux board t.r t.c (t.r - f.r).sign
      (t.c - f.c).sign ((t.r - f.r).natAbs.max (t.c - f.c).natAbs)
      (f.r + (t.r - f.r).sign) (f.c + (t.c - f.c).sign) := rfl
  refine ⟨fun k h1 h2 => hbound k (by omega), ?_, ?_⟩
  · rw [hpc, spec0]
    constructor
    · intro hall k hk1 hk2
      have hmem := hall (k - 1) (by omega)
      have e1 : (f.r + (t.r - f.r).sign) + ((k - 1 : Nat) : Int) * (t.r - f.r).sign
          = f.r + (k : Int) * (t.r - f.r).sign := by
        rw [hcast1 k hk1]
        ring
      have e2 : (f.c + (t.c - f.c).sign) + ((k - 1 : Nat) : Int) * (t.c - f.c).sign
          = f.c + (k : Int) * (t.c - f.c).sign := by
        rw [hcast1 k hk1]
        ring
      rw [e1, e2] at hmem
      exact hmem
    · intro hall j hj
      have e1 : (f.r + (t.r - f.r).sign) + (j : Int) * (t.r - f.r).sign
          = f.r + ((j + 1 : Nat) : Int) * (t.r - f.r).sign := by
        push_cast
        ring
      have e2 : (f.c + (t.c - f.c).sign) + (j : Int) * (t.c - f.c).sign
          = f.c + ((j + 1 : Nat) : Int) * (t.c - f.c).sign := by
        push_cast
        ring
      rw [e1, e2]
      exact hall (j + 1) (by omega) (by omega)
  · intro fuel hfuel
    have specF := pathClearAux_spec board t.r t.c (t.r - f.r).sign (t.c - f.c).sign
        ((t.r - f.r).natAbs.max (t.c - f.c).natAbs - 1) fuel
        (f.r + (t.r - f.r).sign) (f.c + (t.c - f.c).sign) (by omega) hmiss hreach'
    rw [hpc]
    exact Bool.eq_iff_iff.mpr (specF.trans spec0.symm)

/-! ### Projections of the mutation block -/

theorem mutate_turn (g : GameState) (f t : Square) (mp : Piece)
    (toCell : Option Piece) (pt : Option PieceType) (ic ep : Bool) :
    (mutate g f t mp toCell pt ic ep).turn =
      (if g.turn = Color.w then Color.b else Color.w) := rfl

theorem mutate_moveNumber (g : GameState) (f t : Square) (mp : Piece)
    (toCell : Option Piece) (pt : Option PieceType) (ic ep : Bool) :
    (mutate g f t mp toCell pt ic ep).moveNumber =
      (if (if g.turn = Color.w then Color.b else Color.w) = Color.w then
        g.moveNumber + 1
      else g.moveNumber) := rfl

theorem mutate_isOver (g : GameState) (f t : Square) (mp : Piece)
    (toCell : Option Piece) (pt : Option PieceType) (ic ep : Bool) :
    (mutate g f t mp toCell pt ic ep).isOver =
      (if ∃ cp, toCell = some cp ∧ cp.ptype = PieceType.K then true
       else g.isOver) := rfl

theorem mutate_epTarget (g : GameState) (f t : Square) (mp : Piece)
    (toCell : Option Piece) (pt : Option PieceType) (ic ep : Bool) :
    (mutate g f t mp toCell pt ic ep).enPassantTarget =
      (if mp.ptype = PieceType.P ∧ f.r = pawnStartRow mp.color ∧
          (t.r - f.r).natAbs = 2 ∧ f.c = t.c then
        some ⟨f.r + pawnDir mp.color, f.c⟩
      else none) := rfl

theorem mutate_epPawn (g : GameState) (f t : Square) (mp : Piece)
    (toCell : Option Piece) (pt : Option PieceType) (ic ep : Bool) :
    (mutate g f t mp toCell pt ic ep).enPassantPawn =
      (if mp.ptype = PieceType.P ∧ f.r = pawnStartRow mp.color ∧
          (t.r - f.r).natAbs = 2 ∧ f.c = t.c then
        some ⟨t.r, t.c⟩
      else none) := rfl

theorem mutate_board (g : GameState) (f t : Square) (mp : Piece)
    (toCell : Option Piece) (pt : Option PieceType) (ic ep : Bool) :
    (mutate g f t mp toCell pt ic ep).board =
      (if mp.ptype = PieceType.P ∧ t.r = promoteRow mp.color then
        setCell
          (if ep then
            match g.enPassantPawn with
            | some epp =>
              setCell (setCell (setCell g.board t.r t.c (some mp)) f.r f.c none)
                epp.r epp.c none
            | none => setCell (setCell g.board t.r t.c (some mp)) f.r f.c none
          else setCell (setCell g.board t.r t.c (some mp)) f.r f.c none)
          t.r t.c (some ⟨mp.color, PieceType.Q⟩)
      else
        (if ep then
          match g.enPassantPawn with
          | some epp =>
            setCell (setCell (setCell g.board t.r t.c (some mp)) f.r f.c none)
              epp.r epp.c none
          | none => setCell (setCell g.board t.r t.c (some mp)) f.r f.c none
        else setCell (setCell g.board t.r t.c (some mp)) f.r f.c none)) := rfl

theorem mutate_moves (g : GameState) (f t : Square) (mp : Piece)
    (toCell : Option Piece) (pt : Option PieceType) (ic ep : Bool) :
    (mutate g f t mp toCell pt ic ep).moves =
      g.moves ++
        [(if pt = some PieceType.P then
            (if ic then (toAlgebraic f.r f.c).take 1 ++ "x" ++ toAlgebraic t.r t.c
             else toAlgebraic t.r t.c)
          else pieceLetter pt ++ (if ic then "x" else "") ++ toAlgebraic t.r t.c)
         ++ (if (if ∃ cp, toCell = some cp ∧ cp.ptype = PieceType.K then true
                 else g.isOver) then "#" else "")
         ++ (if mp.ptype = PieceType.P ∧ t.r = promoteRow mp.color then "=Q" else "")
         ++ (if ep then " e.p." else "")] := rfl

/-! ### The en-passant classification flag -/

theorem epCaptureFlag_elim {mp : Piece} {toCell : Option Piece} {f t : Square}
    {epTarget epPawn : Option Square}
    (h : epCaptureFlag (some mp) toCell f t epTarget epPawn = true) :
    mp.ptype = PieceType.P ∧ toCell = none ∧ (t.c - f.c).natAbs = 1 ∧
    t.r - f.r = pawnDir mp.color ∧
    (∃ ept, epTarget = some ept ∧ t.r = ept.r ∧ t.c = ept.c) ∧
    (∃ epp, epPawn = some epp ∧ epp.r = f.r ∧ epp.c = t.c) := by
  rcases epTarget with _ | ept
  · simp [epCaptureFlag] at h
  · rcases epPawn with _ | epp
    · simp [epCaptureFlag] at h
    · have hc := of_decide_eq_true (by simpa [epCaptureFlag] using h)
      exact ⟨hc.1, hc.2.1, hc.2.2.1, hc.2.2.2.1,
        ⟨ept, rfl, hc.2.2.2.2.1, hc.2.2.2.2.2.1⟩,
        ⟨epp, rfl, hc.2.2.2.2.2.2.1, hc.2.2.2.2.2.2.2⟩⟩

theorem epCaptureFlag_intro {mp : Piece} {toCell : Option Piece} {f t : Square}
    {ept epp : Square}
    (h1 : mp.ptype = PieceType.P) (h2 : toCell = none)
    (h3 : (t.c - f.c).natAbs = 1) (h4 : t.r - f.r = pawnDir mp.color)
    (h5 : t.r = ept.r) (h6 : t.c = ept.c) (h7 : epp.r = f.r) (h8 : epp.c = t.c) :
    epCaptureFlag (some mp) toCell f t (some ept) (some epp) = true := by
  simp only [epCaptureFlag]
  exact decide_eq_true ⟨h1, h2, h3, h4, h5, h6, h7, h8⟩

/-- On an accepted move whose en-passant classification is set, the
validator must have gone through its en-passant clause, so the recorded
victim square holds an opposing pawn. -/
theorem accepted_ep_victim {g : GameState} {f t : Square} {g2 : GameState}
    (h : applyMove g f t = Except.ok ⟨true, none, g2⟩) {mp : Piece}
    (hmp : getCell g.board f.r f.c = some mp)
    (hflag : epCaptureFlag (some mp) (getCell g.board t.r t.c) f t
      g.enPassantTarget g.enPassantPawn = true) :
    g.enPassantPawn = some ⟨f.r, t.c⟩ ∧
    ∃ v, getCell g.board f.r t.c = some v ∧ v.ptype = PieceType.P ∧
      v.color ≠ mp.color := by
  obtain ⟨hover, mp', hgf, hvm, hg2⟩ := applyMove_ok_true_elim h
  have hmpe : mp' = mp := Option.some.inj (hgf.symm.trans hmp)
  subst hmpe
  obtain ⟨hbf, hbt, hne, p, hp, hpcol, hself, hpawn⟩ := isValidMove_ok_elim hvm
  have hpe : p = mp' := Option.some.inj (hp.symm.trans hmp)
  subst hpe
  obtain ⟨hP, htc, hdc1, hdr, ⟨ept, hepT, h5, h6⟩, ⟨epp, hepP, h7, h8⟩⟩ :=
    epCaptureFlag_elim hflag
  have hvalid := hpawn hP
  rcases (isValidPawnMove_iff _ _ _ _ _ _).mp hvalid with h1 | h2 | h3 | h4
  · exact absurd h1.1 (by omega)
  · exact absurd h2.1 (by omega)
  · obtain ⟨_, _, q, hq, _⟩ := h3
    rw [htc] at hq
    exact absurd hq (by simp)
  · obtain ⟨_, _, _, hept', hepp', v, hv, hvP, hvc⟩ := h4
    exact ⟨hepp', v, hv, hvP, hvc⟩

/-! ### The claims -/

/-- C1: for every board, origin, destination, color and en-passant window,
the pawn validator accepts exactly the moves in the spec's disjunction —
a one-step forward move into an empty square, a two-step forward move from
the starting rank with intermediate and destination empty, a one-step
diagonal onto an opposing piece, or the same diagonal onto an empty square
equal to the en-passant target whose victim square (origin row, destination
column) holds an opposing pawn; every other pawn move is rejected. -/
theorem spec_C1_pawn_rule_exact (board : Board) (f t : Square) (color : Color)
    (epTarget epPawn : Option Square) :
    isValidPawnMove board f t color epTarget epPawn = true ↔
      (pawnOneStep board f t color ∨ pawnTwoStep board f t color ∨
       pawnDiagCapture board f t color ∨
       pawnEpCapture board f t color epTarget epPawn) :=
  isValidPawnMove_iff board f t color epTarget epPawn

/-- C3 (code bug): a submission whose origin row is out of range throws a
TypeError out of the move handler (the unchecked `board[from.r]` read at
the top of the handler) instead of returning the structured "Out of
bounds." rejection that the validator itself would produce; an
out-of-range column alone does get the structured rejection. -/
theorem spec_C3_row_oob_throws :
    applyMove initialGame ⟨10, 0⟩ ⟨9, 0⟩ = Except.error JsError.typeError ∧
    isValidMove initialGame.board ⟨10, 0⟩ ⟨9, 0⟩ Color.w none none =
      Verdict.illegal "Out of bounds." ∧
    applyMove initialGame ⟨0, 10⟩ ⟨1, 10⟩ =
      Except.ok ⟨false, some "Out of bounds.", initialGame⟩ := by
  refine ⟨by decide, by decide, by decide⟩

/-- C5: every rejected move submission (validation failure or game-over
rejection) leaves the board, turn color, move number, en-passant window,
game-over flag and move history unchanged. -/
theorem spec_C5_rejection_preserves_state (g : GameState) (f t : Square)
    (reason : Option String) (g2 : GameState)
    (h : applyMove g f t = Except.ok ⟨false, reason, g2⟩) :
    g2.board = g.board ∧ g2.turn = g.turn ∧ g2.moveNumber = g.moveNumber ∧
    g2.enPassantTarget = g.enPassantTarget ∧
    g2.enPassantPawn = g.enPassantPawn ∧
    g2.isOver = g.isOver ∧ g2.moves = g.moves := by
  have he := applyMove_rejected_elim h
  subst he
  exact ⟨rfl, rfl, rfl, rfl, rfl, rfl, rfl⟩

theorem spec_C5_witness :
    (afterMove initialGame ⟨0, 0⟩ ⟨0, 0⟩).board = initialGame.board ∧
    (afterMove initialGame ⟨0, 0⟩ ⟨0, 0⟩).turn = initialGame.turn ∧
    (afterMove initialGame ⟨0, 0⟩ ⟨0, 0⟩).moveNumber = initialGame.moveNumber ∧
    (afterMove initialGame ⟨0, 0⟩ ⟨0, 0⟩).enPassantTarget
      = initialGame.enPassantTarget ∧
    (afterMove initialGame ⟨0, 0⟩ ⟨0, 0⟩).enPassantPawn
      = initialGame.enPassantPawn ∧
    (afterMove initialGame ⟨0, 0⟩ ⟨0, 0⟩).isOver = initialGame.isOver ∧
    (afterMove initialGame ⟨0, 0⟩ ⟨0, 0⟩).moves = initialGame.moves :=
  spec_C5_rejection_preserves_state initialGame ⟨0, 0⟩ ⟨0, 0⟩
    (some "You must move to a different square.") _ (by decide)

/-- C8: after every accepted move the turn flips to the other color, and
the move number increments exactly when the turn flips back to White
(after Black's move): White's accepted move keeps the move number, Black's
reply increments it. -/
theorem spec_C8_turn_and_move_number (g : GameState) (f t : Square)
    (g2 : GameState) (h : applyMove g f t = Except.ok ⟨true, none, g2⟩) :
    g2.turn = (if g.turn = Color.w then Color.b else Color.w) ∧
    (g.turn = Color.b → g2.moveNumber = g.moveNumber + 1) ∧
    (g.turn = Color.w → g2.moveNumber = g.moveNumber) := by
  obtain ⟨hover, mp, hgf, hvm, hg2⟩ := applyMove_ok_true_elim h
  subst hg2
  refine ⟨mutate_turn g f t mp _ _ _ _, fun hb => ?_, fun hw => ?_⟩
  · rw [mutate_moveNumber]
    simp [hb]
  · rw [mutate_moveNumber]
    simp [hw]

theorem spec_C8_witness :
    (afterMove initialGame ⟨9, 1⟩ ⟨7, 2⟩).turn = Color.b ∧
    (afterMove initialGame ⟨9, 1⟩ ⟨7, 2⟩).moveNumber = 1 := by
  have h := spec_C8_turn_and_move_number initialGame ⟨9, 1⟩ ⟨7, 2⟩
    (afterMove initialGame ⟨9, 1⟩ ⟨7, 2⟩) (by decide)
  exact ⟨h.1.trans (by decide), (h.2.2 rfl).trans rfl⟩

/-- C9: the legality engine calls `pathClear` only with the bishop, rook
and queen guards, which put `from` and `to` on a common row, column or
exact diagonal with `from ≠ to`; under exactly those guards every
intermediate square of the walk is inside the 10×10 board, the loop
reaches the destination within `max |Δr| |Δc|` steps (the result is the
same for any fuel at least that large), and `pathClear` returns true iff
every strictly intermediate square is empty. -/
theorem spec_C9_pathClear_safe (board : Board) (f t : Square)
    (hf : inBounds f.r f.c = true) (ht : inBounds t.r t.c = true)
    (hne : ¬(f.r = t.r ∧ f.c = t.c))
    (halign : (t.r - f.r).natAbs = (t.c - f.c).natAbs ∨
      t.r - f.r = 0 ∨ t.c - f.c = 0) :
    (∀ k : Nat, 1 ≤ k → k < (t.r - f.r).natAbs.max (t.c - f.c).natAbs →
       inBounds (f.r + (k : Int) * (t.r - f.r).sign)
         (f.c + (k : Int) * (t.c - f.c).sign) = true) ∧
    (pathClear board f t = true ↔
       ∀ k : Nat, 1 ≤ k → k < (t.r - f.r).natAbs.max (t.c - f.c).natAbs →
         getCell board (f.r + (k : Int) * (t.r - f.r).sign)
           (f.c + (k : Int) * (t.c - f.c).sign) = none) ∧
    (∀ fuel : Nat, (t.r - f.r).natAbs.max (t.c - f.c).natAbs ≤ fuel →
       pathClearAux board t.r t.c (t.r - f.r).sign (t.c - f.c).sign fuel
         (f.r + (t.r - f.r).sign) (f.c + (t.c - f.c).sign)
         = pathClear board f t) :=
  pathClear_aligned board f t hf ht hne halign

theorem spec_C9_witness :
    pathClear initialBoard ⟨9, 2⟩ ⟨6, 5⟩ = false := by
  have h := spec_C9_pathClear_safe initialBoard ⟨9, 2⟩ ⟨6, 5⟩
    (by decide) (by decide) (by decide) (by decide)
  cases hb : pathClear initialBoard ⟨9, 2⟩ ⟨6, 5⟩ with
  | false => rfl
  | true =>
    exfalso
    have hall := h.2.1.mp hb
    have h1 := hall 1 (by decide) (by decide)
    exact absurd h1 (by decide)

/-- C4: a game-over state rejects every submission up front with the
game-over reason and no state change; and on every accepted move whose
captured piece — by ordinary capture, or by the en-passant removal — is a
King, the game-over flag becomes true. -/
theorem spec_C4_king_capture_game_over (g : GameState) (f t : Square) :
    (g.isOver = true →
      applyMove g f t =
        Except.ok ⟨false, some "Game over. Reset to play again.", g⟩) ∧
    (∀ g2 cp, applyMove g f t = Except.ok ⟨true, none, g2⟩ →
      (getCell g.board t.r t.c = some cp ∨
        (epCaptureFlag (getCell g.board f.r f.c) (getCell g.board t.r t.c) f t
           g.enPassantTarget g.enPassantPawn = true ∧
         ∃ epp, g.enPassantPawn = some epp ∧
           getCell g.board epp.r epp.c = some cp)) →
      cp.ptype = PieceType.K → g2.isOver = true) := by
  refine ⟨fun hover => applyMove_isOver f t hover, ?_⟩
  intro g2 cp h hcap hK
  obtain ⟨hover, mp, hgf, hvm, hg2⟩ := applyMove_ok_true_elim h
  rcases hcap with hcap | ⟨hflag, epp, hepp, hvic⟩
  · subst hg2
    rw [mutate_isOver, if_pos ⟨cp, hcap, hK⟩]
  · rw [hgf] at hflag
    obtain ⟨hepp', v, hv, hvP, hvc⟩ := accepted_ep_victim h hgf hflag
    have he : epp = ⟨f.r, t.c⟩ := Option.some.inj (hepp.symm.trans hepp')
    subst he
    have hcv : cp = v := Option.some.inj (hvic.symm.trans hv)
    subst hcv
    exact absurd (hvP.symm.trans hK) (by decide)

theorem spec_C4_witness :
    applyMove gOver ⟨0, 0⟩ ⟨1, 1⟩ =
      Except.ok ⟨false, some "Game over. Reset to play again.", gOver⟩ ∧
    (afterMove gK ⟨1, 0⟩ ⟨0, 0⟩).isOver = true := by
  constructor
  · exact (spec_C4_king_capture_game_over gOver ⟨0, 0⟩ ⟨1, 1⟩).1 rfl
  · exact (spec_C4_king_capture_game_over gK ⟨1, 0⟩ ⟨0, 0⟩).2
      (afterMove gK ⟨1, 0⟩ ⟨0, 0⟩) ⟨Color.b, PieceType.K⟩ (by decide)
      (Or.inl (by decide)) rfl

/-- C2: after every accepted move the en-passant window is non-null
exactly when that move was a pawn two-step advance from its starting rank
along a single file, in which case the target is the skipped-over square
and the victim the pawn's destination; and whenever the window is clear,
any pawn diagonal into an empty square is rejected, so an en-passant
capture is possible only on the move immediately following the
double-step. -/
theorem spec_C2_ep_window (g : GameState) (f t : Square) (g2 : GameState)
    (mp : Piece) (h : applyMove g f t = Except.ok ⟨true, none, g2⟩)
    (hmp : getCell g.board f.r f.c = some mp) :
    ((g2.enPassantTarget ≠ none ∨ g2.enPassantPawn ≠ none) ↔
      (mp.ptype = PieceType.P ∧ f.r = pawnStartRow mp.color ∧ t.c = f.c ∧
       t.r - f.r = 2 * pawnDir mp.color)) ∧
    ((mp.ptype = PieceType.P ∧ f.r = pawnStartRow mp.color ∧ t.c = f.c ∧
       t.r - f.r = 2 * pawnDir mp.color) →
      g2.enPassantTarget = some ⟨f.r + pawnDir mp.color, f.c⟩ ∧
      g2.enPassantPawn = some ⟨t.r, t.c⟩) ∧
    (g2.enPassantTarget = none →
      ∀ (f2 t2 : Square) (c2 : Color), t2.c - f2.c ≠ 0 →
        getCell g2.board t2.r t2.c = none →
        isValidPawnMove g2.board f2 t2 c2 g2.enPassantTarget g2.enPassantPawn
          = false) := by
  obtain ⟨hover, mp', hgf, hvm, hg2⟩ := applyMove_ok_true_elim h
  have hmpe : mp' = mp := Option.some.inj (hgf.symm.trans hmp)
  rw [hmpe] at hg2
  subst hg2
  obtain ⟨hbf, hbt, hne, p, hp, hpcol, hself, hpawn⟩ := isValidMove_ok_elim hvm
  have hpe : p = mp := Option.some.inj (hp.symm.trans hmp)
  rw [hpe] at hpawn
  have hiff : (mp.ptype = PieceType.P ∧ f.r = pawnStartRow mp.color ∧
      (t.r - f.r).natAbs = 2 ∧ f.c = t.c) ↔
      (mp.ptype = PieceType.P ∧ f.r = pawnStartRow mp.color ∧ t.c = f.c ∧
       t.r - f.r = 2 * pawnDir mp.color) := by
    have hdir := pawnDir_cases mp.color
    constructor
    · rintro ⟨hP, hs, habs, hcc⟩
      refine ⟨hP, hs, hcc.symm, ?_⟩
      have hdisj := (isValidPawnMove_iff _ _ _ _ _ _).mp (hpawn hP)
      rcases hdisj with h1 | h2 | h3 | h4
      · exact absurd h1.2.1 (by rcases hdir with hd | hd <;> rw [hd] <;> omega)
      · exact h2.2.2.1
      · exact absurd h3.1 (by omega)
      · exact absurd h4.1 (by omega)
    · rintro ⟨hP, hs, hcc, hdr⟩
      refine ⟨hP, hs, ?_, hcc.symm⟩
      rcases hdir with hd | hd <;> rw [hd] at hdr <;> omega
  refine ⟨?_, ?_, ?_⟩
  · rw [mutate_epTarget, mutate_epPawn]
    by_cases hd : mp.ptype = PieceType.P ∧ f.r = pawnStartRow mp.color ∧
        (t.r - f.r).natAbs = 2 ∧ f.c = t.c
    · rw [if_pos hd, if_pos hd]
      exact iff_of_true (Or.inl (by simp)) (hiff.mp hd)
    · rw [if_neg hd, if_neg hd]
      exact iff_of_false (by simp) (fun hc => hd (hiff.mpr hc))
  · intro hc
    have hd := hiff.mpr hc
    rw [mutate_epTarget, if_pos hd, mutate_epPawn, if_pos hd]
    exact ⟨rfl, rfl⟩
  · intro hnone f2 t2 c2 hdc htgt
    have hd : ¬(mp.ptype = PieceType.P ∧ f.r = pawnStartRow mp.color ∧
        (t.r - f.r).natAbs = 2 ∧ f.c = t.c) := by
      intro hd
      rw [mutate_epTarget, if_pos hd] at hnone
      exact absurd hnone (by simp)
    have hpnone := mutate_epPawn g f t mp (getCell g.board t.r t.c)
      (some mp.ptype) (decide (getCell g.board t.r t.c ≠ none))
      (epCaptureFlag (some mp) (getCell g.board t.r t.c) f t
        g.enPassantTarget g.enPassantPawn)
    rw [if_neg hd] at hpnone
    rw [hnone, hpnone]
    exact isValidPawnMove_no_ep _ f2 t2 c2 _ hdc htgt

theorem spec_C2_witness :
    (afterMove initialGame ⟨8, 4⟩ ⟨6, 4⟩).enPassantTarget = some ⟨7, 4⟩ ∧
    (afterMove initialGame ⟨8, 4⟩ ⟨6, 4⟩).enPassantPawn = some ⟨6, 4⟩ := by
  have h := spec_C2_ep_window initialGame ⟨8, 4⟩ ⟨6, 4⟩
    (afterMove initialGame ⟨8, 4⟩ ⟨6, 4⟩) ⟨Color.w, PieceType.P⟩
    (by decide) (by decide)
  have hc := h.2.1 ⟨rfl, by decide, rfl, by decide⟩
  exact ⟨hc.1.trans (by decide), hc.2⟩

/-- C6: an accepted pawn move whose destination row is the pawn's
farthest rank (row 0 for white, row 9 for black) leaves a same-color
Queen on the destination square — never another piece — and a pawn
arriving on any other row is left there unreplaced. -/
theorem spec_C6_promotion (g : GameState) (f t : Square) (g2 : GameState)
    (mp : Piece) (h : applyMove g f t = Except.ok ⟨true, none, g2⟩)
    (hwf : boardWF g.board) (hmp : getCell g.board f.r f.c = some mp)
    (hP : mp.ptype = PieceType.P) :
    (t.r = promoteRow mp.color →
      getCell g2.board t.r t.c = some ⟨mp.color, PieceType.Q⟩) ∧
    (t.r ≠ promoteRow mp.color → getCell g2.board t.r t.c = some mp) := by
  obtain ⟨hover, mp', hgf, hvm, hg2⟩ := applyMove_ok_true_elim h
  have hmpe : mp' = mp := Option.some.inj (hgf.symm.trans hmp)
  rw [hmpe] at hg2
  subst hg2
  obtain ⟨hbf, hbt, hne, p, hp, hpcol, hself, hpawn⟩ := isValidMove_ok_elim hvm
  have hwf1 : boardWF (setCell g.board t.r t.c (some mp)) := setCell_WF _ hwf
  have hwf2 : boardWF (setCell (setCell g.board t.r t.c (some mp)) f.r f.c none) :=
    setCell_WF _ hwf1
  have hne' : ¬(t.r = f.r ∧ t.c = f.c) := fun hand => hne ⟨hand.1.symm, hand.2.symm⟩
  rw [mutate_board]
  by_cases hep : epCaptureFlag (some mp) (getCell g.board t.r t.c) f t
      g.enPassantTarget g.enPassantPawn = true
  · obtain ⟨hPf, htcell, hdc1, hdr, hept_ex, ⟨epp, hepP, h7, h8⟩⟩ :=
      epCaptureFlag_elim hep
    rw [if_pos hep]
    simp only [hepP]
    have hwf3 : boardWF (setCell
        (setCell (setCell g.board t.r t.c (some mp)) f.r f.c none)
        epp.r epp.c none) := setCell_WF _ hwf2
    have hepne : ¬(t.r = epp.r ∧ t.c = epp.c) := by
      rintro ⟨h1, h2⟩
      rw [h7] at h1
      rcases pawnDir_cases mp.color with hd | hd <;> rw [hd] at hdr <;> omega
    constructor
    · intro hpr
      rw [if_pos ⟨hP, hpr⟩]
      exact getCell_setCell_self _ hwf3 hbt
    · intro hpr
      rw [if_neg (fun hand => hpr hand.2)]
      rw [getCell_setCell_other _ hepne, getCell_setCell_other _ hne']
      exact getCell_setCell_self _ hwf hbt
  · rw [if_neg hep]
    constructor
    · intro hpr
      rw [if_pos ⟨hP, hpr⟩]
      exact getCell_setCell_self _ hwf2 hbt
    · intro hpr
      rw [if_neg (fun hand => hpr hand.2)]
      rw [getCell_setCell_other _ hne']
      exact getCell_setCell_self _ hwf hbt

theorem spec_C6_witness :
    getCell (afterMove gC7 ⟨1, 4⟩ ⟨0, 5⟩).board 0 5 =
      some ⟨Color.w, PieceType.Q⟩ := by
  have h := spec_C6_promotion gC7 ⟨1, 4⟩ ⟨0, 5⟩ (afterMove gC7 ⟨1, 4⟩ ⟨0, 5⟩)
    ⟨Color.w, PieceType.P⟩ (by decide) ⟨by decide, by decide⟩ (by decide) rfl
  exact h.1 (by decide)

/-- C7, as stated, is false: the handler appends "#" before "=Q".  At the
concrete position `gC7` a white pawn captures the black king on the
promotion rank, and the recorded move string is "exf10#=Q", not the
claimed "exf10=Q#". -/
theorem spec_C7_counterexample :
    (afterMove gC7 ⟨1, 4⟩ ⟨0, 5⟩).moves = ["exf10#=Q"] ∧
    (afterMove gC7 ⟨1, 4⟩ ⟨0, 5⟩).moves ≠ ["exf10=Q#"] := by
  exact ⟨by decide, by decide⟩

/-- C7 (amended): the notation string appended by every accepted move is
the piece-letter/capture/destination part first (pawn: destination alone,
or origin-file + "x" + destination on capture; non-pawn: piece letter,
"x" if capture, destination), then "#" if the move ended the game, then
"=Q" if promotion occurred, then the trailing en-passant marker. -/
theorem spec_C7_move_string_amended (g : GameState) (f t : Square)
    (g2 : GameState) (mp : Piece)
    (h : applyMove g f t = Except.ok ⟨true, none, g2⟩)
    (hmp : getCell g.board f.r f.c = some mp) :
    g2.moves = g.moves ++
      [(if mp.ptype = PieceType.P then
          (if getCell g.board t.r t.c ≠ none then
            (toAlgebraic f.r f.c).take 1 ++ "x" ++ toAlgebraic t.r t.c
           else toAlgebraic t.r t.c)
        else
          pieceLetter (some mp.ptype) ++
          (if getCell g.board t.r t.c ≠ none then "x" else "") ++
          toAlgebraic t.r t.c)
       ++ (if g2.isOver = true then "#" else "")
       ++ (if mp.ptype = PieceType.P ∧ t.r = promoteRow mp.color then "=Q"
           else "")
       ++ (if epCaptureFlag (some mp) (getCell g.board t.r t.c) f t
             g.enPassantTarget g.enPassantPawn = true then " e.p."
           else "")] := by
  obtain ⟨hover, mp', hgf, hvm, hg2⟩ := applyMove_ok_true_elim h
  have hmpe : mp' = mp := Option.some.inj (hgf.symm.trans hmp)
  rw [hmpe] at hg2
  subst hg2
  rw [mutate_moves, mutate_isOver]
  simp only [Option.some.injEq, decide_eq_true_eq]

theorem spec_C7_witness :
    (afterMove initialGame ⟨8, 4⟩ ⟨7, 4⟩).moves = ["e3"] := by
  have h := spec_C7_move_string_amended initialGame ⟨8, 4⟩ ⟨7, 4⟩
    (afterMove initialGame ⟨8, 4⟩ ⟨7, 4⟩) ⟨Color.w, PieceType.P⟩
    (by decide) (by decide)
  exact h.trans (by decide)

/-- C10: on every accepted move, the handler's en-passant classification
is true exactly when the moving piece is a pawn and the validator's
en-passant clause (as the spec words it) holds; consequently, whenever
the flag directs the removal branch to empty the victim square, that
square holds a pawn of the opposing color. -/
theorem spec_C10_ep_classification (g : GameState) (f t : Square)
    (g2 : GameState) (mp : Piece)
    (h : applyMove g f t = Except.ok ⟨true, none, g2⟩)
    (hmp : getCell g.board f.r f.c = some mp) :
    (epCaptureFlag (some mp) (getCell g.board t.r t.c) f t g.enPassantTarget
        g.enPassantPawn = true ↔
      (mp.ptype = PieceType.P ∧
       pawnEpCapture g.board f t mp.color g.enPassantTarget g.enPassantPawn)) ∧
    (epCaptureFlag (some mp) (getCell g.board t.r t.c) f t g.enPassantTarget
        g.enPassantPawn = true →
      ∃ epp v, g.enPassantPawn = some epp ∧ epp.r = f.r ∧ epp.c = t.c ∧
        getCell g.board epp.r epp.c = some v ∧ v.ptype = PieceType.P ∧
        v.color ≠ mp.color) := by
  constructor
  · constructor
    · intro hflag
      obtain ⟨hP, htcell, hdc1, hdr, ⟨ept, hepT, h5, h6⟩, ⟨epp, hepP, h7, h8⟩⟩ :=
        epCaptureFlag_elim hflag
      obtain ⟨hepp', v, hv, hvP, hvc⟩ := accepted_ep_victim h hmp hflag
      refine ⟨hP, hdc1, hdr, htcell, ?_, hepp', v, hv, hvP, hvc⟩
      rw [hepT]
      cases ept with
      | mk a b =>
        simp only [Option.some.injEq, Square.mk.injEq]
        exact ⟨h5.symm, h6.symm⟩
    · rintro ⟨hP, hdc1, hdr, htcell, hepT, hepP, v, hv, hvP, hvc⟩
      rw [hepT, hepP]
      exact epCaptureFlag_intro hP htcell hdc1 hdr rfl rfl rfl rfl
  · intro hflag
    obtain ⟨hepp', v, hv, hvP, hvc⟩ := accepted_ep_victim h hmp hflag
    exact ⟨⟨f.r, t.c⟩, v, hepp', rfl, rfl, hv, hvP, hvc⟩

theorem spec_C10_witness :
    epCaptureFlag (some ⟨Color.b, PieceType.P⟩) (getCell gEP.board 7 4)
      ⟨6, 3⟩ ⟨7, 4⟩ gEP.enPassantTarget gEP.enPassantPawn = true ∧
    getCell gEP.board 6 4 = some ⟨Color.w, PieceType.P⟩ := by
  have h := spec_C10_ep_classification gEP ⟨6, 3⟩ ⟨7, 4⟩
    (afterMove gEP ⟨6, 3⟩ ⟨7, 4⟩) ⟨Color.b, PieceType.P⟩ (by decide) (by decide)
  refine ⟨h.1.mpr ⟨rfl, by decide, by decide, by decide, rfl, rfl,
    ⟨Color.w, PieceType.P⟩, by decide, rfl, by decide⟩, by decide⟩

end ChessX100
